import Mathlib

/-!
Shallow embedding of the lab-result ingestion pipeline
(`src/pipeline/process_data_cloud.py`, `src/pipeline/delete_records.py`,
`src/models.py`) and proofs about its merge, partitioning, validation,
quarantine and deletion behaviour.
-/

namespace Pipeline

/-! ## Calendar dates

The pipeline partitions records by the `test_date` column.  Dates are
modelled as year/month/day triples in the proleptic Gregorian calendar. -/

structure Date where
  year : Nat
  month : Nat
  day : Nat
deriving DecidableEq, Repr

def isLeap (y : Nat) : Bool :=
  (y % 4 == 0 && y % 100 != 0) || y % 400 == 0

def daysInMonth (y m : Nat) : Nat :=
  if m = 2 then (if isLeap y then 29 else 28)
  else if m = 4 ∨ m = 6 ∨ m = 9 ∨ m = 11 then 30
  else 31

def Date.Valid (d : Date) : Prop :=
  1 ≤ d.month ∧ d.month ≤ 12 ∧ 1 ≤ d.day ∧ d.day ≤ daysInMonth d.year d.month

instance (d : Date) : Decidable d.Valid := by
  unfold Date.Valid; infer_instance

/-- Ordinal day within the year (Jan 1 = 1). -/
def dayOfYear (d : Date) : Nat :=
  (List.range (d.month - 1)).foldl (fun acc i => acc + daysInMonth d.year (i + 1)) 0 + d.day

/-- Days contained in all years strictly before year `y` (years counted from 1). -/
def daysBeforeYear (y : Nat) : Nat :=
  365 * (y - 1) + (y - 1) / 4 + (y - 1) / 400 - (y - 1) / 100

/-- Day number in the proleptic Gregorian calendar, with 0001-01-01 = 1. -/
def ordinal (d : Date) : Nat :=
  daysBeforeYear d.year + dayOfYear d

/-- ISO weekday: Monday = 1 … Sunday = 7 (0001-01-01 is a Monday). -/
def isoWeekday (d : Date) : Nat :=
  (ordinal d - 1) % 7 + 1

def jan1Weekday (y : Nat) : Nat := isoWeekday ⟨y, 1, 1⟩

/-- An ISO week-numbering year has 53 weeks iff it starts on Thursday, or it is
a leap year starting on Wednesday. -/
def longYear (y : Nat) : Bool :=
  jan1Weekday y == 4 || (isLeap y && jan1Weekday y == 3)

def weeksInYear (y : Nat) : Nat := if longYear y then 53 else 52

/-- ISO-8601 week number of a date; this is the semantics of the polars
expression `pl.col("test_date").dt.week()` used by the pipeline. -/
def isoWeek (d : Date) : Nat :=
  let w := (dayOfYear d + 10 - isoWeekday d) / 7
  if w = 0 then weeksInYear (d.year - 1)
  else if w = 53 ∧ ¬ longYear d.year then 1
  else w

/-- Modelled from the spec: the ISO-8601 week-numbering year of a date (the
spec's "<Y> is the ISO year"); the source never computes this quantity — its
`dt.year()` is the calendar year — so this definition exists to compare the
spec's partition key against the code's. -/
def isoYear (d : Date) : Nat :=
  let w := (dayOfYear d + 10 - isoWeekday d) / 7
  if w = 0 then d.year - 1
  else if w = 53 ∧ ¬ longYear d.year then d.year + 1
  else d.year

/-- Embedding of the polars expression `pl.col("test_date").dt.year()`:
the calendar year. -/
def dtYear (d : Date) : Nat := d.year

/-- Embedding of the polars expression `pl.col("test_date").dt.week()`:
the ISO week number. -/
def dtWeek (d : Date) : Nat := isoWeek d

/-! ## Partition key

`process_data_cloud.py` lines 132-137 build the partition path column with
`pl.format("year={}/week={}", pl.col("test_date").dt.year(), pl.col("test_date").dt.week())`,
and `delete_records.py` lines 103-108 build it with the identical expression.
Both are embedded separately so their agreement is a theorem, not a definition. -/

/-- Partition path of the ingestion pipeline (`process_data_cloud.py` 133-137). -/
def partition_path (d : Date) : String :=
  "year=" ++ toString (dtYear d) ++ "/week=" ++ toString (dtWeek d)

/-- Partition path of the deletion processor (`delete_records.py` 104-108). -/
def delete_partition_path (d : Date) : String :=
  "year=" ++ toString (dtYear d) ++ "/week=" ++ toString (dtWeek d)

/-- Object key of the ingestion pipeline (`process_data_cloud.py` line 148). -/
def ingest_blob_name (d : Date) : String := partition_path d ++ "/data.parquet"

/-- Object key of the deletion processor (`delete_records.py` line 126). -/
def delete_blob_name (d : Date) : String := delete_partition_path d ++ "/data.parquet"

/-- The partition key pair actually computed by the code: calendar year with
ISO week number. -/
def codePartitionPair (d : Date) : Nat × Nat := (dtYear d, dtWeek d)

/-- Modelled from the spec: the partition key pair the spec describes,
ISO week-numbering year with ISO week number. -/
def specPartitionPair (d : Date) : Nat × Nat := (isoYear d, isoWeek d)

/-! ## Records and the upsert engine

A validated row (`models.py` `LabResult`).  All five columns are present on
every validated row; tombstones carry the placeholder values `"N/A"` / `0`
(`process_data_cloud.py` lines 80-87). -/

structure LabResult where
  sample_id : String
  test_date : Date
  result : String
  viral_load : Int
  sample_status : String
deriving DecidableEq, Repr

/-- Embedding of `combined_df.unique(subset=["sample_id"], keep="last")`
(`process_data_cloud.py` line 163): for each `sample_id` only the last
occurrence in the frame is kept. -/
def dedupKeepLast : List LabResult → List LabResult
  | [] => []
  | r :: rs =>
      if rs.any (fun s => s.sample_id == r.sample_id) then dedupKeepLast rs
      else r :: dedupKeepLast rs

/-- Embedding of `pl.concat([history_df, new_batch_df])` followed by the
dedup of line 163. -/
def mergePartition (history newBatch : List LabResult) : List LabResult :=
  dedupKeepLast (history ++ newBatch)

/-- Embedding of `final_df.filter(pl.col("sample_status") != "remove")`
(`process_data_cloud.py` lines 176 and 193). -/
def removeTombstones (l : List LabResult) : List LabResult :=
  l.filter (fun r => r.sample_status ≠ "remove")

/-- Per-run counter deltas contributed by one partition
(`process_data_cloud.py` lines 166-196). -/
structure Counters where
  rows_inserted : Nat
  rows_updated : Nat
  rows_deleted : Nat
deriving DecidableEq, Repr

/-- Per-partition merge step of `process_pipeline`
(`process_data_cloud.py` lines 151-201): `existing = some history` is the
branch where the partition blob already exists, `none` the branch that
creates it.  Returns the persisted contents and the counter deltas added to
the execution log. -/
def processPartition (existing : Option (List LabResult)) (newBatch : List LabResult) :
    List LabResult × Counters :=
  match existing with
  | some history =>
      let final0 := mergePartition history newBatch
      let newIds := (newBatch.map LabResult.sample_id).dedup
      let histIds := (history.map LabResult.sample_id).dedup
      let inserted := (newIds.filter (fun i => ¬ histIds.contains i)).length
      let updated := (newIds.filter (fun i => histIds.contains i)).length
      let final := removeTombstones final0
      let deleted := final0.length - final.length
      (final, ⟨inserted, updated, deleted⟩)
  | none =>
      let final := removeTombstones newBatch
      (final, ⟨final.length, 0, 0⟩)

/-- Records of `l` carrying a given `sample_id`. -/
def withId (id : String) (l : List LabResult) : List LabResult :=
  l.filter (fun r => r.sample_id == id)

/-- Number of records of `l` carrying a given `sample_id`. -/
def countId (id : String) (l : List LabResult) : Nat :=
  (withId id l).length

/-- Last record of `l` carrying a given `sample_id`, if any. -/
def lastWithId (id : String) (l : List LabResult) : Option LabResult :=
  (withId id l).getLast?

/-! ## Row validation

`process_data_cloud.py` reads every CSV cell as a string
(`infer_schema_length=0`), so a raw row is a mapping from the five column
names to optional string values (`none` = the column is absent from the
file).  Validation of non-tombstone rows is `LabResult(**row)` from
`models.py`: pydantic validates each declared field independently, in
declaration order, and raises one `ValidationError` aggregating every
field's failure. -/

structure RawRow where
  sample_id : Option String
  test_date : Option String
  result : Option String
  viral_load : Option String
  sample_status : Option String
deriving DecidableEq, Repr

instance {ε α : Type} [DecidableEq ε] [DecidableEq α] : DecidableEq (Except ε α) :=
  fun a b =>
    match a, b with
    | .ok x, .ok y =>
        if h : x = y then .isTrue (by rw [h]) else .isFalse (by simp [h])
    | .error x, .error y =>
        if h : x = y then .isTrue (by rw [h]) else .isFalse (by simp [h])
    | .ok _, .error _ => .isFalse (by simp)
    | .error _, .ok _ => .isFalse (by simp)

/-- Parse a nonempty string of decimal digits. -/
def digitsToNat : List Char → Option Nat
  | [] => none
  | cs =>
      cs.foldl
        (fun acc c =>
          match acc with
          | none => none
          | some n => if c.isDigit then some (n * 10 + (c.toNat - 48)) else none)
        (some 0)

/-- Split a character list at each dash. -/
def splitDashes : List Char → List Char → List (List Char)
  | [], acc => [acc.reverse]
  | c :: rest, acc =>
      if c = '-' then acc.reverse :: splitDashes rest []
      else splitDashes rest (c :: acc)

/-- Parse a `YYYY-MM-DD` string into a valid calendar date (the format of
every `test_date` in the system; both pydantic's `date` field and
`datetime.strptime(..., "%Y-%m-%d")` accept exactly such strings here). -/
def parseDate (s : String) : Option Date :=
  match splitDashes s.data [] with
  | [ys, ms, ds] =>
      if ys.length = 4 ∧ ms.length = 2 ∧ ds.length = 2 then
        match digitsToNat ys, digitsToNat ms, digitsToNat ds with
        | some y, some m, some d =>
            if 1 ≤ m ∧ m ≤ 12 ∧ 1 ≤ d ∧ d ≤ daysInMonth y m then some ⟨y, m, d⟩
            else none
        | _, _, _ => none
      else none
  | _ => none

/-- Parse a (possibly negative) decimal integer, pydantic's lax coercion of a
string to an `int` field. -/
def parseInt (s : String) : Option Int :=
  match s.data with
  | c :: rest =>
      if c = '-' then (digitsToNat rest).map (fun n => -(n : Int))
      else (digitsToNat (c :: rest)).map (fun n => (n : Int))
  | [] => none

/-- One diagnostic per failing field of `models.py`'s `LabResult`, in field
declaration order: `sample_id`, `test_date`, `result`, `viral_load`,
`sample_status`.  Pydantic checks every field and aggregates the failures;
a plain `str` field such as `sample_id` has no further constraint (in
particular no non-emptiness check), `result` must be one of the three exact
tokens, `sample_status` one of `keep`/`remove` with default `keep`. -/
def fieldErrors (row : RawRow) : List String :=
  (match row.sample_id with
   | none => ["sample_id: Field required"]
   | some _ => [])
  ++ (match row.test_date with
      | none => ["test_date: Field required"]
      | some s =>
          match parseDate s with
          | none => ["test_date: Input should be a valid date"]
          | some _ => [])
  ++ (match row.result with
      | none => ["result: Field required"]
      | some v =>
          if v = "POS" ∨ v = "NEG" ∨ v = "N/A" then []
          else ["Invalid result code: " ++ v ++ ". Must be POS, NEG, or N/A"])
  ++ (match row.viral_load with
      | none => ["viral_load: Field required"]
      | some s =>
          match parseInt s with
          | none => ["viral_load: Input should be a valid integer"]
          | some _ => [])
  ++ (match row.sample_status with
      | none => []
      | some v =>
          if v = "keep" ∨ v = "remove" then []
          else ["sample_status: Input should be 'keep' or 'remove'"])

/-- Embedding of `LabResult(**row)` (`models.py` lines 5-24, called at
`process_data_cloud.py` line 103): on success the validated record, on
failure the aggregated list of field diagnostics carried by the raised
`ValidationError`.  When `fieldErrors row = []` every lookup below is on a
present, successfully parsed field, so the `getD` defaults are never used. -/
def validateLabResult (row : RawRow) : Except (List String) LabResult :=
  if fieldErrors row = [] then
    .ok { sample_id := row.sample_id.getD ""
        , test_date := (row.test_date.bind parseDate).getD ⟨1970, 1, 1⟩
        , result := row.result.getD ""
        , viral_load := (row.viral_load.bind parseInt).getD 0
        , sample_status := row.sample_status.getD "keep" }
  else .error (fieldErrors row)

/-- The diagnostics carried by a validation outcome (empty for a success). -/
def errList : Except (List String) LabResult → List String
  | .error e => e
  | .ok _ => []

/-- Embedding of the per-row dispatch of `process_pipeline`
(`process_data_cloud.py` lines 68-109): a row whose raw `sample_status` is
`"remove"` takes the tombstone branch (only `sample_id` and a parseable
`test_date` required, other fields filled with placeholders); every other
row goes through `LabResult` validation. -/
def processRow (row : RawRow) : Except (List String) LabResult :=
  if row.sample_status = some "remove" then
    match row.sample_id, row.test_date with
    | some sid, some td =>
        match parseDate td with
        | some d =>
            .ok { sample_id := sid, sample_status := "remove", test_date := d
                , result := "N/A", viral_load := 0 }
        | none => .error ["Tombstone record has invalid test_date"]
    | _, _ =>
        .error ["Tombstone record missing required fields: 'sample_id' and 'test_date'"]
  else validateLabResult row

/-! ## Blob stores

A container holding one value per blob name, as the abstract
list/read/write/delete capability the pipeline uses. -/

def StoreF (α : Type) := String → Option α

/-- Write (or overwrite) one blob, `upload_blob(..., overwrite=True)`. -/
def setBlob {α : Type} (s : StoreF α) (k : String) (v : α) : StoreF α :=
  fun k' => if k' = k then some v else s k'

/-! ## Quarantine sink

`process_data_cloud.py` lines 114-122: the run's rejected rows, if any, are
written as one fresh CSV named `quarantine_<timestamp>.csv`; an empty reject
list writes nothing. -/

/-- A rejected row: the raw row plus `pipeline_error` and `source_file`
columns (`process_data_cloud.py` lines 90-92 and 106-108). -/
structure ErrorRow where
  row : RawRow
  pipeline_error : List String
  source_file : String
deriving DecidableEq, Repr

/-- Name of the quarantine artifact of one run. -/
def quarantineName (timestamp : String) : String :=
  "quarantine_" ++ timestamp ++ ".csv"

/-- Embedding of the quarantine step (`process_data_cloud.py` lines
114-122) acting on the quarantine container. -/
def quarantineStep (store : StoreF (List ErrorRow)) (all_error_rows : List ErrorRow)
    (timestamp : String) : StoreF (List ErrorRow) :=
  if all_error_rows.isEmpty then store
  else setBlob store (quarantineName timestamp) all_error_rows

/-! ## Deletion processor

`delete_records.py`.  A deletion-request file either fails to read or parse
(`read_csv` / `strptime` raises), lacks one of the required columns, or
yields a list of `(sample_id, test_date)` requests. -/

inductive ReqFile where
  | unreadable (name : String)
  | missingCols (name : String)
  | valid (name : String) (rows : List (String × Date))
deriving DecidableEq, Repr

def ReqFile.isGood : ReqFile → Bool
  | .valid _ _ => true
  | _ => false

/-- Phase 1 of `process_deletions` (`delete_records.py` lines 56-88):
walk the request queue in order; a valid file's rows are appended to
`all_deletions` (one entry per file) and the file is deleted from the
queue; an unreadable file or one with missing columns is skipped and stays
in the queue. -/
def readRequests : List ReqFile → List ReqFile × List (List (String × Date))
  | [] => ([], [])
  | f :: rest =>
      let (q, ds) := readRequests rest
      match f with
      | .valid _ rows => (q, rows :: ds)
      | bad => (bad :: q, ds)

/-- The sample_ids of the requests that target partition `part`
(`delete_records.py` lines 122-123). -/
def idsFor (dels : List (String × Date)) (part : String) : List String :=
  ((dels.filter (fun rq => delete_partition_path rq.2 == part)).map Prod.fst)

/-- Embedding of `history_df.filter(~pl.col("sample_id").is_in(ids_to_delete))`
(`delete_records.py` line 142). -/
def deleteFromPartition (history : List LabResult) (ids : List String) : List LabResult :=
  history.filter (fun r => ¬ ids.contains r.sample_id)

/-- One iteration of the partition loop (`delete_records.py` lines 118-169):
skip a missing partition; otherwise filter out the requested ids and
re-upload only when at least one row was removed. -/
def partitionStep (s : StoreF (List LabResult)) (dels : List (String × Date))
    (part : String) : StoreF (List LabResult) × Nat :=
  match s part with
  | none => (s, 0)
  | some history =>
      if 0 < history.length - (deleteFromPartition history (idsFor dels part)).length then
        (setBlob s part (deleteFromPartition history (idsFor dels part)),
          history.length - (deleteFromPartition history (idsFor dels part)).length)
      else (s, 0)

/-- One fold step of the partition loop: apply `partitionStep` and
accumulate `total_deleted`. -/
def deleteFold (dels : List (String × Date)) (acc : StoreF (List LabResult) × Nat)
    (part : String) : StoreF (List LabResult) × Nat :=
  ((partitionStep acc.1 dels part).1, acc.2 + (partitionStep acc.1 dels part).2)

/-- The partition loop of `process_deletions` (`delete_records.py` lines
110-171), accumulating `total_deleted`. -/
def deletePass (store : StoreF (List LabResult)) (dels : List (String × Date)) :
    StoreF (List LabResult) × Nat :=
  let parts := (dels.map (fun rq => delete_partition_path rq.2)).dedup
  parts.foldl (deleteFold dels) (store, 0)

/-- Embedding of `process_deletions` (`delete_records.py` lines 27-180):
returns the remaining request queue, the updated data store and the run's
`rows_deleted` total.  When no valid request file was read the partition
loop is not entered (lines 90-94). -/
def process_deletions (queue : List ReqFile) (store : StoreF (List LabResult)) :
    List ReqFile × StoreF (List LabResult) × Nat :=
  if (readRequests queue).2.isEmpty then ((readRequests queue).1, store, 0)
  else ((readRequests queue).1,
        (deletePass store (readRequests queue).2.flatten).1,
        (deletePass store (readRequests queue).2.flatten).2)

/-- All requests read in one run, in processing order. -/
def allRequests (queue : List ReqFile) : List (String × Date) :=
  (readRequests queue).2.flatten

/-- Does `id` occur among the sample_ids of an optional partition content? -/
def occursIn (id : String) (o : Option (List LabResult)) : Bool :=
  (o.getD []).any (fun r => r.sample_id == id)

/-! ## Helper lemmas about the keep-last deduplication -/

theorem mem_of_mem_dedupKeepLast {r : LabResult} :
    ∀ {l : List LabResult}, r ∈ dedupKeepLast l → r ∈ l := by
  intro l
  induction l with
  | nil => simp [dedupKeepLast]
  | cons a rs ih =>
      simp only [dedupKeepLast]
      split
      · intro h; exact List.mem_cons_of_mem a (ih h)
      · intro h
        rcases List.mem_cons.mp h with h | h
        · exact h ▸ List.mem_cons_self a rs
        · exact List.mem_cons_of_mem a (ih h)

theorem countId_cons (id : String) (a : LabResult) (l : List LabResult) :
    countId id (a :: l) = (if a.sample_id = id then 1 else 0) + countId id l := by
  by_cases h : a.sample_id = id
  · simp [countId, withId, List.filter_cons, h, Nat.add_comm]
  · simp [countId, withId, List.filter_cons, h]

theorem countId_eq_zero {id : String} {l : List LabResult}
    (h : ∀ r ∈ l, r.sample_id ≠ id) : countId id l = 0 := by
  induction l with
  | nil => rfl
  | cons a rs ih =>
      rw [countId_cons]
      have ha := h a (List.mem_cons_self a rs)
      simp only [ha, if_false, Nat.zero_add]
      exact ih fun r hr => h r (List.mem_cons_of_mem a hr)

theorem countId_dedupKeepLast_le_one (id : String) (l : List LabResult) :
    countId id (dedupKeepLast l) ≤ 1 := by
  induction l with
  | nil => simp [dedupKeepLast, countId, withId]
  | cons a rs ih =>
      simp only [dedupKeepLast]
      split
      · exact ih
      · next hb =>
          rw [countId_cons]
          by_cases ha : a.sample_id = id
          · have hz : countId id (dedupKeepLast rs) = 0 := by
              apply countId_eq_zero
              intro r hr hid
              have hr' := mem_of_mem_dedupKeepLast hr
              have : rs.any (fun s => s.sample_id == a.sample_id) = true := by
                rw [List.any_eq_true]
                exact ⟨r, hr', by simp [hid, ha]⟩
              simp [this] at hb
            simp [ha, hz]
          · simpa [ha] using ih

theorem countId_dedupKeepLast_eq_one {id : String} :
    ∀ {l : List LabResult}, (∃ r ∈ l, r.sample_id = id) →
      countId id (dedupKeepLast l) = 1 := by
  intro l
  induction l with
  | nil => rintro ⟨r, hr, -⟩; cases hr
  | cons a rs ih =>
      rintro ⟨r, hr, hid⟩
      simp only [dedupKeepLast]
      split
      · next hb =>
          rcases List.mem_cons.mp hr with h | h
          · rw [List.any_eq_true] at hb
            rcases hb with ⟨s, hs, hsid⟩
            refine ih ⟨s, hs, ?_⟩
            have : s.sample_id = a.sample_id := by simpa using hsid
            rw [this, ← h, hid]
          · exact ih ⟨r, h, hid⟩
      · next hb =>
          rw [countId_cons]
          by_cases ha : a.sample_id = id
          · have hz : countId id (dedupKeepLast rs) = 0 := by
              apply countId_eq_zero
              intro s hs hsid
              have hs' := mem_of_mem_dedupKeepLast hs
              exact hb (by rw [List.any_eq_true]; exact ⟨s, hs', by simp [hsid, ha]⟩)
            simp [ha, hz]
          · rcases List.mem_cons.mp hr with h | h
            · exact absurd (h ▸ hid) ha
            · simpa [ha] using ih ⟨r, h, hid⟩

theorem withId_cons (id : String) (a : LabResult) (l : List LabResult) :
    withId id (a :: l) = if a.sample_id = id then a :: withId id l else withId id l := by
  by_cases h : a.sample_id = id <;> simp [withId, List.filter_cons, h]

theorem withId_eq_nil {id : String} {l : List LabResult}
    (h : ∀ r ∈ l, r.sample_id ≠ id) : withId id l = [] := by
  have := countId_eq_zero h
  exact List.length_eq_zero.mp this

theorem lastWithId_dedupKeepLast {r : LabResult} :
    ∀ {l : List LabResult}, r ∈ dedupKeepLast l → lastWithId r.sample_id l = some r := by
  intro l
  induction l with
  | nil => simp [dedupKeepLast]
  | cons a rs ih =>
      intro h
      cases hb : rs.any (fun s => s.sample_id == a.sample_id) with
      | true =>
          rw [dedupKeepLast, if_pos hb] at h
          by_cases ha : a.sample_id = r.sample_id
          · have hw : withId r.sample_id rs ≠ [] :=
              List.ne_nil_of_mem
                (List.mem_filter.mpr ⟨mem_of_mem_dedupKeepLast h, by simp⟩)
            unfold lastWithId
            rw [withId_cons, if_pos ha,
              show a :: withId r.sample_id rs = [a] ++ withId r.sample_id rs from rfl,
              List.getLast?_append_of_ne_nil [a] hw]
            exact ih h
          · unfold lastWithId
            rw [withId_cons, if_neg ha]
            exact ih h
      | false =>
          rw [dedupKeepLast, if_neg (by simp [hb])] at h
          rcases List.mem_cons.mp h with he | hm
          · subst he
            have hz : withId r.sample_id rs = [] := by
              apply withId_eq_nil
              intro s hs hsid
              have hany : rs.any (fun s => s.sample_id == r.sample_id) = true := by
                rw [List.any_eq_true]; exact ⟨s, hs, by simp [hsid]⟩
              rw [hany] at hb; exact Bool.noConfusion hb
            unfold lastWithId
            rw [withId_cons, if_pos rfl, hz]
            rfl
          · have ha : a.sample_id ≠ r.sample_id := by
              intro haeq
              have hr' := mem_of_mem_dedupKeepLast hm
              have hany : rs.any (fun s => s.sample_id == a.sample_id) = true := by
                rw [List.any_eq_true]; exact ⟨r, hr', by simp [haeq]⟩
              rw [hany] at hb; exact Bool.noConfusion hb
            unfold lastWithId
            rw [withId_cons, if_neg ha]
            exact ih hm

theorem lastWithId_append_right {a b : List LabResult} {id : String}
    (h : ∃ r ∈ b, r.sample_id = id) :
    lastWithId id (a ++ b) = lastWithId id b := by
  unfold lastWithId withId
  rw [List.filter_append]
  apply List.getLast?_append_of_ne_nil
  rcases h with ⟨r, hr, hid⟩
  exact List.ne_nil_of_mem (List.mem_filter.mpr ⟨hr, by simp [hid]⟩)

theorem countId_sublist_le {l₁ l₂ : List LabResult} (h : l₁.Sublist l₂) (id : String) :
    countId id l₁ ≤ countId id l₂ :=
  (h.filter _).length_le

theorem length_sub_removeTombstones (l : List LabResult) :
    l.length - (removeTombstones l).length =
      (l.filter (fun r => r.sample_status == "remove")).length := by
  induction l with
  | nil => rfl
  | cons a rs ih =>
      have hle : (removeTombstones rs).length ≤ rs.length :=
        List.length_filter_le _ _
      by_cases h : a.sample_status = "remove"
      · have h1 : removeTombstones (a :: rs) = removeTombstones rs := by
          simp [removeTombstones, List.filter_cons, h]
        have h2 : (a :: rs).filter (fun r => r.sample_status == "remove")
            = a :: rs.filter (fun r => r.sample_status == "remove") := by
          simp [List.filter_cons, h]
        rw [h1, h2]
        simp only [List.length_cons]
        omega
      · have h1 : removeTombstones (a :: rs) = a :: removeTombstones rs := by
          simp [removeTombstones, List.filter_cons, h]
        have h2 : (a :: rs).filter (fun r => r.sample_status == "remove")
            = rs.filter (fun r => r.sample_status == "remove") := by
          simp [List.filter_cons, h]
        rw [h1, h2]
        simp only [List.length_cons]
        omega

/-! ## Helper lemmas about the deletion processor -/

/-- Result of the partition loop at the partition it is visiting, as a
function of that partition's prior content alone. -/
def pointUpdate (o : Option (List LabResult)) (ids : List String) :
    Option (List LabResult) :=
  match o with
  | none => none
  | some history =>
      if 0 < history.length - (deleteFromPartition history ids).length then
        some (deleteFromPartition history ids)
      else some history

theorem deleteFold_fst (dels : List (String × Date)) (acc : StoreF (List LabResult) × Nat)
    (part : String) :
    (deleteFold dels acc part).1 = (partitionStep acc.1 dels part).1 := rfl

theorem partitionStep_fst_ne {s : StoreF (List LabResult)} {dels : List (String × Date)}
    {part q : String} (h : q ≠ part) :
    (partitionStep s dels part).1 q = s q := by
  unfold partitionStep
  split
  · rfl
  · split
    · simp [setBlob, h]
    · rfl

theorem partitionStep_fst_self (s : StoreF (List LabResult)) (dels : List (String × Date))
    (part : String) :
    (partitionStep s dels part).1 part = pointUpdate (s part) (idsFor dels part) := by
  unfold partitionStep pointUpdate
  split
  · next hs => exact hs
  · next history hs =>
      split
      · next hlt => simp [setBlob]
      · next hlt => exact hs

theorem deleteFold_fst_not_mem {dels : List (String × Date)} :
    ∀ (parts : List String) (s : StoreF (List LabResult)) (t : Nat) (q : String),
      q ∉ parts → (List.foldl (deleteFold dels) (s, t) parts).1 q = s q := by
  intro parts
  induction parts with
  | nil => intro s t q _; rfl
  | cons a ps ih =>
      intro s t q hq
      have hqa : q ≠ a := fun he => hq (he ▸ List.mem_cons_self a ps)
      have hqps : q ∉ ps := fun hm => hq (List.mem_cons_of_mem a hm)
      simp only [List.foldl_cons]
      rw [ih _ _ q hqps]
      exact partitionStep_fst_ne hqa

theorem deleteFold_fst_mem {dels : List (String × Date)} :
    ∀ (parts : List String) (s : StoreF (List LabResult)) (t : Nat) (q : String),
      parts.Nodup → q ∈ parts →
      (List.foldl (deleteFold dels) (s, t) parts).1 q =
        pointUpdate (s q) (idsFor dels q) := by
  intro parts
  induction parts with
  | nil => intro s t q _ hq; cases hq
  | cons a ps ih =>
      intro s t q hnd hq
      simp only [List.foldl_cons]
      rcases List.mem_cons.mp hq with he | hm
      · subst he
        have hqps : q ∉ ps := (List.nodup_cons.mp hnd).1
        rw [deleteFold_fst_not_mem ps _ _ q hqps, deleteFold_fst]
        exact partitionStep_fst_self s dels q
      · have hqa : q ≠ a := by
          intro he
          exact (List.nodup_cons.mp hnd).1 (he ▸ hm)
        rw [ih _ _ q (List.nodup_cons.mp hnd).2 hm, deleteFold_fst,
          partitionStep_fst_ne hqa]

theorem no_id_of_noMatch {dels : List (String × Date)} {s : StoreF (List LabResult)}
    {a : String} {history : List LabResult}
    (hnm : ∀ rq ∈ dels, occursIn rq.1 (s (delete_partition_path rq.2)) = false)
    (hs : s a = some history) :
    ∀ r ∈ history, r.sample_id ∉ idsFor dels a := by
  intro r hr hcon
  unfold idsFor at hcon
  rcases List.mem_map.mp hcon with ⟨rq, hrq, hfst⟩
  have hpath : delete_partition_path rq.2 = a := by
    have := (List.mem_filter.mp hrq).2
    simpa using this
  have hocc := hnm rq (List.mem_filter.mp hrq).1
  rw [hpath, hs] at hocc
  have hocc' : occursIn rq.1 (some history) = true := by
    unfold occursIn
    rw [List.any_eq_true]
    exact ⟨r, by simpa using hr, by simp [hfst]⟩
  rw [hocc'] at hocc
  exact Bool.noConfusion hocc

theorem deleteFromPartition_no_id {history : List LabResult} {ids : List String}
    (h : ∀ r ∈ history, r.sample_id ∉ ids) :
    deleteFromPartition history ids = history := by
  unfold deleteFromPartition
  rw [List.filter_eq_self]
  intro r hr
  rw [decide_eq_true_eq]
  intro hcon
  exact h r hr (by simpa using hcon)

theorem deleteFold_noMatch {dels : List (String × Date)} {s : StoreF (List LabResult)}
    (hnm : ∀ rq ∈ dels, occursIn rq.1 (s (delete_partition_path rq.2)) = false) :
    ∀ (parts : List String) (t : Nat),
      List.foldl (deleteFold dels) (s, t) parts = (s, t) := by
  intro parts
  induction parts with
  | nil => intro t; rfl
  | cons a ps ih =>
      intro t
      have hstep1 : partitionStep s dels a = (s, 0) := by
        unfold partitionStep
        split
        · rfl
        · next history hs =>
            have hfil : deleteFromPartition history (idsFor dels a) = history :=
              deleteFromPartition_no_id (no_id_of_noMatch hnm hs)
            rw [hfil, if_neg (by omega)]
      have hstep : deleteFold dels (s, t) a = (s, t) := by
        show ((partitionStep s dels a).1, t + (partitionStep s dels a).2) = (s, t)
        rw [hstep1]
        rfl
      rw [List.foldl_cons, hstep, ih]

theorem readRequests_fst (queue : List ReqFile) :
    (readRequests queue).1 = queue.filter (fun f => ¬ f.isGood) := by
  induction queue with
  | nil => rfl
  | cons f rest ih =>
      cases f <;> simp [readRequests, List.filter_cons, ReqFile.isGood, ih]

theorem isGood_unreadable (n : String) : (ReqFile.unreadable n).isGood = false := rfl

theorem isGood_missingCols (n : String) : (ReqFile.missingCols n).isGood = false := rfl

theorem isGood_valid (n : String) (rows : List (String × Date)) :
    (ReqFile.valid n rows).isGood = true := rfl

theorem readRequests_snd_filter (queue : List ReqFile) :
    (readRequests (queue.filter (fun f => f.isGood))).2 = (readRequests queue).2 := by
  induction queue with
  | nil => rfl
  | cons f rest ih =>
      cases f with
      | unreadable n =>
          rw [List.filter_cons, if_neg (by rw [isGood_unreadable]; exact Bool.noConfusion)]
          rw [ih]
          rfl
      | missingCols n =>
          rw [List.filter_cons, if_neg (by rw [isGood_missingCols]; exact Bool.noConfusion)]
          rw [ih]
          rfl
      | valid n rows =>
          rw [List.filter_cons, if_pos (by rw [isGood_valid])]
          show ((readRequests (List.filter (fun f => f.isGood) rest)).1,
            rows :: (readRequests (List.filter (fun f => f.isGood) rest)).2).2
            = (readRequests (ReqFile.valid n rows :: rest)).2
          show rows :: (readRequests (List.filter (fun f => f.isGood) rest)).2
            = (readRequests (ReqFile.valid n rows :: rest)).2
          rw [ih]
          rfl

/-! ## Concrete data used by counterexamples and witnesses -/

def histS1 : List LabResult := [⟨"S1", ⟨2025, 1, 6⟩, "POS", 50, "keep"⟩]

def newS1 : LabResult := ⟨"S1", ⟨2025, 1, 6⟩, "POS", 300, "keep"⟩

def dupA : LabResult := ⟨"S1", ⟨2025, 1, 6⟩, "POS", 1, "keep"⟩

def dupB : LabResult := ⟨"S1", ⟨2025, 1, 6⟩, "NEG", 2, "keep"⟩

def tombS2 : LabResult := ⟨"S2", ⟨2025, 1, 6⟩, "N/A", 0, "remove"⟩

/-! ## Claim theorems -/

/-- C1: for every partition history and new batch, the keep-last merge of
`process_pipeline` (concat of history and batch, then
`unique(subset=["sample_id"], keep="last")`) keeps exactly one record per
`sample_id` occurring in either input, and every surviving record whose
`sample_id` occurs in the new batch — in particular every `sample_id`
present in both history and batch — is the new batch's (last) version of
that sample: last-write-wins over history. -/
theorem upsert_last_write_wins (history newBatch : List LabResult) :
    (∀ id : String, (∃ r ∈ history ++ newBatch, r.sample_id = id) →
        countId id (mergePartition history newBatch) = 1)
    ∧ (∀ r ∈ mergePartition history newBatch,
        (∃ s ∈ newBatch, s.sample_id = r.sample_id) →
        lastWithId r.sample_id newBatch = some r)
    ∧ (processPartition (some histS1) [newS1]).1 = [newS1] := by
  refine ⟨?_, ?_, by decide⟩
  · intro id h
    exact countId_dedupKeepLast_eq_one h
  · intro r hr hb
    have h1 : lastWithId r.sample_id (history ++ newBatch) = some r :=
      lastWithId_dedupKeepLast hr
    rw [lastWithId_append_right hb] at h1
    exact h1

/-- Witness for C1 at the spec's own example: history holds S1 with measure
50, the batch holds S1 with measure 300; the merge keeps exactly one S1
record and it is the batch's version (measure 300). -/
theorem upsert_last_write_wins_witness :
    countId "S1" (mergePartition histS1 [newS1]) = 1
    ∧ lastWithId "S1" [newS1] = some newS1 :=
  ⟨(upsert_last_write_wins histS1 [newS1]).1 "S1" ⟨newS1, by decide, rfl⟩,
   (upsert_last_write_wins histS1 [newS1]).2.1 newS1 (by decide)
     ⟨newS1, by decide, rfl⟩⟩

/-- C2 counterexample: when the target partition does not yet exist,
`process_pipeline` persists the tombstone-filtered batch without any
deduplication (line 193), so a batch holding two rows for sample "S1"
creates a partition holding two records for "S1" — the claimed at-most-one
invariant fails. -/
theorem fresh_partition_duplicates_cex :
    ¬ countId "S1" (processPartition none [dupA, dupB]).1 ≤ 1 := by decide

/-- C2 (amended): after an upsert into an existing partition the persisted
set holds at most one record per `sample_id`, even when the incoming batch
holds duplicates; a deletion-request pass never increases any sample_id's
record count in any partition; but an upsert that creates a previously
nonexistent partition persists the batch without deduplication, so it only
bounds each sample_id's count by its count in the batch. -/
theorem partition_uniqueness_amended :
    (∀ history newBatch : List LabResult, ∀ id : String,
        countId id (processPartition (some history) newBatch).1 ≤ 1)
    ∧ (∀ history : List LabResult, ∀ ids : List String, ∀ id : String,
        countId id (deleteFromPartition history ids) ≤ countId id history)
    ∧ (∀ queue : List ReqFile, ∀ store : StoreF (List LabResult),
        ∀ p : String, ∀ id : String,
        countId id (((process_deletions queue store).2.1 p).getD []) ≤
          countId id ((store p).getD []))
    ∧ (∀ newBatch : List LabResult, ∀ id : String,
        countId id (processPartition none newBatch).1 ≤ countId id newBatch) := by
  refine ⟨?_, ?_, ?_, ?_⟩
  · intro history newBatch id
    have h1 : countId id (removeTombstones (mergePartition history newBatch)) ≤
        countId id (mergePartition history newBatch) :=
      countId_sublist_le (List.filter_sublist _) id
    exact le_trans h1 (countId_dedupKeepLast_le_one id _)
  · intro history ids id
    exact countId_sublist_le (List.filter_sublist _) id
  · intro queue store p id
    unfold process_deletions
    split
    · exact le_refl _
    · show countId id (((deletePass store (readRequests queue).2.flatten).1 p).getD [])
        ≤ countId id ((store p).getD [])
      unfold deletePass
      by_cases hp : p ∈ (((readRequests queue).2.flatten.map
          (fun rq => delete_partition_path rq.2)).dedup)
      · rw [deleteFold_fst_mem _ _ _ _ (List.nodup_dedup _) hp]
        unfold pointUpdate
        split
        · next hs => rw [hs]
        · next history hs =>
            rw [hs]
            split
            · exact countId_sublist_le (List.filter_sublist _) id
            · exact le_refl _
      · rw [deleteFold_fst_not_mem _ _ _ _ hp]
  · intro newBatch id
    exact countId_sublist_le (List.filter_sublist _) id

/-- C3 counterexample: 2024-12-30 lies in ISO week 1 of ISO week-numbering
year 2025, but the code's partition key pairs the calendar year with the
ISO week, yielding (2024, 1) instead of the claimed (2025, 1). -/
theorem partition_year_not_iso_cex :
    codePartitionPair ⟨2024, 12, 30⟩ ≠ specPartitionPair ⟨2024, 12, 30⟩
    ∧ codePartitionPair ⟨2024, 12, 30⟩ = (2024, 1)
    ∧ specPartitionPair ⟨2024, 12, 30⟩ = (2025, 1) := by
  refine ⟨by decide, by decide, by decide⟩

/-- C3 (amended): the partition key written into the store key pairs the
calendar year of the date with its ISO week number (not the ISO
week-numbering year); consequently two dates of one and the same ISO week
that straddle a calendar-year boundary — 2024-12-30 and 2025-01-01, both in
ISO week 1 of ISO year 2025 — are mapped to two different partitions. -/
theorem partition_key_calendar_year :
    (∀ d : Date, partition_path d =
        "year=" ++ toString d.year ++ "/week=" ++ toString (isoWeek d))
    ∧ specPartitionPair ⟨2024, 12, 30⟩ = specPartitionPair ⟨2025, 1, 1⟩
    ∧ partition_path ⟨2024, 12, 30⟩ ≠ partition_path ⟨2025, 1, 1⟩ := by
  refine ⟨fun d => rfl, by decide, by decide⟩

/-- C4 counterexample: a tombstone sent to a previously nonexistent
partition is excluded from the persisted contents (one excluded record),
yet the fresh-partition branch of `process_pipeline` (lines 189-201) never
touches `rows_deleted`, so the counter is incremented by 0, not by 1 as the
claim requires. -/
theorem fresh_partition_tombstone_not_counted_cex :
    (processPartition none [tombS2]).1 = []
    ∧ (processPartition none [tombS2]).2.rows_deleted = 0
    ∧ (processPartition none [tombS2]).2.rows_deleted ≠ 1 := by
  refine ⟨rfl, rfl, by decide⟩

/-- C4 (amended): records of the merged result with status `remove` are
excluded from the persisted partition contents in both branches, and
`rows_deleted` is incremented by exactly the number of excluded records
when the target partition already existed; but when the partition did not
previously exist, the tombstones are dropped silently and the branch adds
0 to `rows_deleted`. -/
theorem tombstone_removal_amended (history newBatch : List LabResult) :
    (∀ r ∈ mergePartition history newBatch, r.sample_status = "remove" →
        r ∉ (processPartition (some history) newBatch).1)
    ∧ (processPartition (some history) newBatch).2.rows_deleted =
        ((mergePartition history newBatch).filter
          (fun r => r.sample_status == "remove")).length
    ∧ (∀ r ∈ newBatch, r.sample_status = "remove" →
        r ∉ (processPartition none newBatch).1)
    ∧ (processPartition none newBatch).2.rows_deleted = 0 := by
  refine ⟨?_, ?_, ?_, rfl⟩
  · intro r _ hrem hmem
    have h := (List.mem_filter.mp hmem).2
    rw [hrem] at h
    simp at h
  · exact length_sub_removeTombstones (mergePartition history newBatch)
  · intro r _ hrem hmem
    have h := (List.mem_filter.mp hmem).2
    rw [hrem] at h
    simp at h

/-- Witness for C4 (amended): history holds a record for S2 and the batch
holds a tombstone for S2; the tombstone is excluded from the persisted set,
`rows_deleted` increments by exactly 1 in the existing-partition branch,
and by 0 in the fresh-partition branch. -/
theorem tombstone_removal_amended_witness :
    tombS2 ∉ (processPartition (some [⟨"S2", ⟨2025, 1, 6⟩, "POS", 7, "keep"⟩])
        [tombS2]).1
    ∧ (processPartition (some [⟨"S2", ⟨2025, 1, 6⟩, "POS", 7, "keep"⟩])
        [tombS2]).2.rows_deleted = 1
    ∧ (processPartition none [tombS2]).2.rows_deleted = 0 :=
  ⟨(tombstone_removal_amended [⟨"S2", ⟨2025, 1, 6⟩, "POS", 7, "keep"⟩] [tombS2]).1
      tombS2 (by decide) rfl,
   by rw [(tombstone_removal_amended [⟨"S2", ⟨2025, 1, 6⟩, "POS", 7, "keep"⟩]
      [tombS2]).2.1]; decide,
   (tombstone_removal_amended [⟨"S2", ⟨2025, 1, 6⟩, "POS", 7, "keep"⟩] [tombS2]).2.2.2⟩

/-- C5: the ingestion pipeline and the deletion processor compute one and
the same partition path string — and hence the same partition object key —
for every calendar date, so a record and a deletion request with equal
`reference_date` always resolve to the same partition object. -/
theorem partition_path_ingest_eq_delete (d : Date) :
    partition_path d = delete_partition_path d
    ∧ ingest_blob_name d = delete_blob_name d :=
  ⟨rfl, rfl⟩

/-! ## Validation claims -/

def badRow6 : RawRow := ⟨some "X1", some "not-a-date", some "MAYBE", some "10", none⟩

def emptyIdRow : RawRow := ⟨some "", some "2025-01-06", some "POS", some "5", none⟩

/-- C6 counterexample: a row whose `test_date` does not parse and whose
`result` is not an allowed code is rejected with the messages of BOTH
failing rules (pydantic validates every field and aggregates the errors),
not with the first failing rule's message only. -/
theorem validate_multiple_errors_cex :
    validateLabResult badRow6 =
      .error ["test_date: Input should be a valid date",
              "Invalid result code: MAYBE. Must be POS, NEG, or N/A"]
    ∧ (errList (validateLabResult badRow6)).length = 2 := by
  refine ⟨by decide, by decide⟩

/-- C6 (amended): for every RawRow that fails validation, the RejectedRow
carries the aggregated messages of ALL failing field rules, in field
declaration order; validation does not stop at the first failure, so each
failing rule's message occurs in the rejection. -/
theorem validate_collects_all_errors (row : RawRow) (e : String)
    (he : e ∈ fieldErrors row) :
    validateLabResult row = .error (fieldErrors row)
    ∧ e ∈ errList (validateLabResult row) := by
  have hne : fieldErrors row ≠ [] := List.ne_nil_of_mem he
  have h1 : validateLabResult row = .error (fieldErrors row) := by
    unfold validateLabResult
    rw [if_neg hne]
  refine ⟨h1, ?_⟩
  rw [h1]
  exact he

/-- Witness for C6 (amended) at a row with an unparseable date and an
invalid result code: the date rule's message occurs in the rejection. -/
theorem validate_collects_all_errors_witness :
    validateLabResult badRow6 = .error (fieldErrors badRow6)
    ∧ "test_date: Input should be a valid date" ∈
        errList (validateLabResult badRow6) :=
  validate_collects_all_errors badRow6 "test_date: Input should be a valid date"
    (by decide)

/-- C7 counterexample: a non-tombstone row with an empty `sample_id` and
otherwise valid fields is NOT rejected — `models.py` declares `sample_id`
as a plain `str` with no non-emptiness rule, so validation produces a valid
record whose `sample_id` is the empty string. -/
theorem empty_sample_id_accepted_cex :
    processRow emptyIdRow = .ok ⟨"", ⟨2025, 1, 6⟩, "POS", 5, "keep"⟩ := by decide

/-- C7 (amended): validation performs no non-emptiness check on
`sample_id`: every non-tombstone RawRow whose `sample_id` is the empty
string and whose remaining fields pass their rules yields a valid record
with empty `sample_id`, not a RejectedRow. -/
theorem validate_no_nonempty_check (row : RawRow)
    (hs : row.sample_id = some "") (hst : row.sample_status ≠ some "remove")
    (hok : fieldErrors row = []) :
    processRow row = .ok
      { sample_id := ""
      , test_date := (row.test_date.bind parseDate).getD ⟨1970, 1, 1⟩
      , result := row.result.getD ""
      , viral_load := (row.viral_load.bind parseInt).getD 0
      , sample_status := row.sample_status.getD "keep" } := by
  unfold processRow
  rw [if_neg hst]
  unfold validateLabResult
  rw [if_pos hok, hs]
  rfl

/-- Witness for C7 (amended) at the concrete empty-id row. -/
theorem validate_no_nonempty_check_witness :
    processRow emptyIdRow = .ok
      { sample_id := ""
      , test_date := (emptyIdRow.test_date.bind parseDate).getD ⟨1970, 1, 1⟩
      , result := emptyIdRow.result.getD ""
      , viral_load := (emptyIdRow.viral_load.bind parseInt).getD 0
      , sample_status := emptyIdRow.sample_status.getD "keep" } :=
  validate_no_nonempty_check emptyIdRow rfl (by decide) (by decide)

/-! ## Quarantine claim -/

def er0 : ErrorRow :=
  ⟨⟨some "OLD", none, none, none, none⟩, ["old error"], "old.csv"⟩

def er1 : ErrorRow :=
  ⟨badRow6, ["test_date: Input should be a valid date"], "batch1.csv"⟩

def qstore : StoreF (List ErrorRow) :=
  fun n => if n = "quarantine_old.csv" then some [er0] else none

/-- C8: all RejectedRows of one run are serialized into the single
timestamp-named artifact `quarantine_<timestamp>.csv`, whose content is
exactly the run's reject list (never merged with prior content); every
other quarantine artifact is left untouched; and a run with zero rejects
writes no artifact at all. -/
theorem quarantine_single_artifact (store : StoreF (List ErrorRow))
    (errs : List ErrorRow) (ts : String) :
    (errs = [] → quarantineStep store errs ts = store)
    ∧ (errs ≠ [] →
        quarantineStep store errs ts (quarantineName ts) = some errs)
    ∧ (∀ n, n ≠ quarantineName ts → quarantineStep store errs ts n = store n) := by
  refine ⟨?_, ?_, ?_⟩
  · intro h
    unfold quarantineStep
    rw [if_pos (by simp [h])]
  · intro h
    unfold quarantineStep
    rw [if_neg (by simpa using h)]
    simp [setBlob]
  · intro n hn
    unfold quarantineStep
    split
    · rfl
    · simp [setBlob, hn]

/-- Witness for C8: an empty reject list writes nothing; a nonempty one
creates the run's artifact with exactly its rows and leaves the prior
artifact `quarantine_old.csv` unchanged. -/
theorem quarantine_single_artifact_witness :
    quarantineStep qstore [] "20250106_120000" = qstore
    ∧ quarantineStep qstore [er1] "20250106_120000"
        (quarantineName "20250106_120000") = some [er1]
    ∧ quarantineStep qstore [er1] "20250106_120000" "quarantine_old.csv"
        = qstore "quarantine_old.csv" :=
  ⟨(quarantine_single_artifact qstore [] "20250106_120000").1 rfl,
   (quarantine_single_artifact qstore [er1] "20250106_120000").2.1 (by decide),
   (quarantine_single_artifact qstore [er1] "20250106_120000").2.2
     "quarantine_old.csv" (by decide)⟩

/-! ## Deletion-processor claims -/

theorem no_id_of_noMatch_at {dels : List (String × Date)}
    {store : StoreF (List LabResult)} {p : String} {history : List LabResult}
    (hp : ∀ rq ∈ dels, delete_partition_path rq.2 = p →
        occursIn rq.1 (store p) = false)
    (hs : store p = some history) :
    ∀ r ∈ history, r.sample_id ∉ idsFor dels p := by
  intro r hr hcon
  unfold idsFor at hcon
  rcases List.mem_map.mp hcon with ⟨rq, hrq, hfst⟩
  have hpath : delete_partition_path rq.2 = p := by
    have := (List.mem_filter.mp hrq).2
    simpa using this
  have hocc := hp rq (List.mem_filter.mp hrq).1 hpath
  rw [hs] at hocc
  have hocc' : occursIn rq.1 (some history) = true := by
    unfold occursIn
    rw [List.any_eq_true]
    exact ⟨r, by simpa using hr, by simp [hfst]⟩
  rw [hocc'] at hocc
  exact Bool.noConfusion hocc

/-- C9: every successfully read deletion-request file is removed from the
request queue — the remaining queue is exactly the unreadable/invalid
files, independent of whether any `sample_id` matched; a partition none of
whose targeted `sample_id`s occur in it is left with literally its prior
content; and a run whose requests all name absent sample_ids reports
`rows_deleted = 0`. -/
theorem deletion_request_consumed_noop (queue : List ReqFile)
    (store : StoreF (List LabResult)) :
    (process_deletions queue store).1 = queue.filter (fun f => ¬ f.isGood)
    ∧ (∀ p : String,
        (∀ rq ∈ allRequests queue, delete_partition_path rq.2 = p →
            occursIn rq.1 (store p) = false) →
        (process_deletions queue store).2.1 p = store p)
    ∧ ((∀ rq ∈ allRequests queue,
          occursIn rq.1 (store (delete_partition_path rq.2)) = false) →
        (process_deletions queue store).2.2 = 0) := by
  refine ⟨?_, ?_, ?_⟩
  · unfold process_deletions
    split
    · exact readRequests_fst queue
    · exact readRequests_fst queue
  · intro p hp
    unfold process_deletions
    split
    · rfl
    · show (deletePass store (allRequests queue)).1 p = store p
      unfold deletePass
      by_cases hmem : p ∈ (((allRequests queue).map
          (fun rq => delete_partition_path rq.2)).dedup)
      · rw [deleteFold_fst_mem _ _ _ _ (List.nodup_dedup _) hmem]
        unfold pointUpdate
        split
        · next hs => exact hs.symm
        · next history hs =>
            have hfil : deleteFromPartition history (idsFor (allRequests queue) p)
                = history :=
              deleteFromPartition_no_id (no_id_of_noMatch_at hp hs)
            rw [hfil, if_neg (by omega)]
            exact hs.symm
      · rw [deleteFold_fst_not_mem _ _ _ _ hmem]
  · intro hnm
    unfold process_deletions
    split
    · rfl
    · show (deletePass store (allRequests queue)).2 = 0
      unfold deletePass
      rw [deleteFold_noMatch hnm _ 0]

/-! Concrete deletion run: one valid request naming absent sample "B", one
request file with missing columns, a store holding partition
`year=2025/week=2` with the single record `dupA`. -/

def d2 : Date := ⟨2025, 1, 6⟩

def st9 : StoreF (List LabResult) :=
  fun k => if k = "year=2025/week=2" then some [dupA] else none

def q9 : List ReqFile :=
  [ReqFile.valid "req1.csv" [("B", d2)], ReqFile.missingCols "bad.csv"]

/-- Witness for C9 at the concrete run: the valid file is consumed (only
the invalid one remains), the targeted partition keeps its prior content,
and zero rows are deleted. -/
theorem deletion_request_consumed_noop_witness :
    (process_deletions q9 st9).1 = q9.filter (fun f => ¬ f.isGood)
    ∧ (process_deletions q9 st9).2.1 "year=2025/week=2" = st9 "year=2025/week=2"
    ∧ (process_deletions q9 st9).2.2 = 0 :=
  ⟨(deletion_request_consumed_noop q9 st9).1,
   (deletion_request_consumed_noop q9 st9).2.1 "year=2025/week=2" (by decide),
   (deletion_request_consumed_noop q9 st9).2.2 (by decide)⟩

/-- C10: an unreadable request file, or one lacking the required columns,
stays in the request queue for a later run; the run's store outcome and
deletion total are exactly those of the run restricted to the valid files
(so invalid files cause no partition modification while valid files are
still consumed and applied); and every valid file is consumed. -/
theorem invalid_request_file_skipped (queue : List ReqFile)
    (store : StoreF (List LabResult)) :
    (∀ f ∈ queue, f.isGood = false → f ∈ (process_deletions queue store).1)
    ∧ (process_deletions queue store).2 =
        (process_deletions (queue.filter (fun f => f.isGood)) store).2
    ∧ (∀ f ∈ queue, f.isGood = true → f ∉ (process_deletions queue store).1) := by
  have hq : (process_deletions queue store).1
      = queue.filter (fun f => ¬ f.isGood) := by
    unfold process_deletions
    split
    · exact readRequests_fst queue
    · exact readRequests_fst queue
  refine ⟨?_, ?_, ?_⟩
  · intro f hf hbad
    rw [hq]
    exact List.mem_filter.mpr ⟨hf, by simp [hbad]⟩
  · unfold process_deletions
    rw [readRequests_snd_filter]
    split <;> rfl
  · intro f hf hgood hmem
    rw [hq] at hmem
    have h2 := (List.mem_filter.mp hmem).2
    rw [hgood] at h2
    simp at h2

/-- Witness for C10 at the concrete run: the missing-columns file remains
queued, the outcome equals that of the valid-files-only run, and the valid
file is consumed. -/
theorem invalid_request_file_skipped_witness :
    ReqFile.missingCols "bad.csv" ∈ (process_deletions q9 st9).1
    ∧ (process_deletions q9 st9).2 =
        (process_deletions (q9.filter (fun f => f.isGood)) st9).2
    ∧ ReqFile.valid "req1.csv" [("B", d2)] ∉ (process_deletions q9 st9).1 :=
  ⟨(invalid_request_file_skipped q9 st9).1 (ReqFile.missingCols "bad.csv")
      (by decide) rfl,
   (invalid_request_file_skipped q9 st9).2.1,
   (invalid_request_file_skipped q9 st9).2.2 (ReqFile.valid "req1.csv" [("B", d2)])
      (by decide) rfl⟩

end Pipeline
